import Mathlib

/-!
Shallow embedding of the GraphQL subscription proof-of-concept server
(src/server/src/index.js, the batched `tokensUpdated` variant).

The entity store is the module-level `tokens` object: an insertion-ordered
map from uppercase symbol keys to token records, modelled as an association
list.  Randomness (`Math.random()`) is modelled by explicit rational
parameters in `[0, 1)`; the biased JS shuffle (`sort(() => Math.random() - 0.5)`)
is modelled by an arbitrary permutation parameter, since a JS sort always
returns some permutation of its input.  Numbers are modelled as rationals;
`Math.round(x * 100) / 100` becomes `round2`.
-/

namespace PriceFeed

/-- Token record, from the `tokens` object literal and the `Token` GraphQL
type: `tokenResourceId`, `symbol`, `name`, `price`, `change24h`. -/
structure Token where
  tokenResourceId : String
  symbol : String
  name : String
  price : ℚ
  change24h : ℚ
deriving DecidableEq, Repr

/-- The entity store: association list from object key (uppercase symbol)
to token record, in insertion order. -/
abbrev Store := List (String × Token)

/-- The ETH record of the `tokens` object literal. -/
def ethToken : Token :=
  { tokenResourceId := "token:ethereum:native", symbol := "ETH",
    name := "Ethereum", price := 2250.50, change24h := 2.5 }

/-- The BTC record of the `tokens` object literal. -/
def btcToken : Token :=
  { tokenResourceId := "token:bitcoin:native", symbol := "BTC",
    name := "Bitcoin", price := 43500.00, change24h := 1.8 }

/-- The SOL record of the `tokens` object literal. -/
def solToken : Token :=
  { tokenResourceId := "token:solana:native", symbol := "SOL",
    name := "Solana", price := 98.75, change24h := -0.5 }

/-- Initial `tokens` object from the source. -/
def tokens0 : Store :=
  [("ETH", ethToken), ("BTC", btcToken), ("SOL", solToken)]

/-- JS `String.prototype.toUpperCase` on the ASCII symbols this program
handles: uppercase every character. -/
def toUpperCase (s : String) : String :=
  ⟨s.data.map Char.toUpper⟩

/-- Resolver `Query.token`: uppercase the argument and look it up in the
`tokens` object, returning `null` (here `none`) when absent. -/
def queryToken (store : Store) (symbol : String) : Option Token :=
  store.lookup (toUpperCase symbol)

/-- Resolver `Query.tokens`: `Object.values(tokens)`. -/
def queryTokens (store : Store) : List Token :=
  store.map Prod.snd

/-- Batch published on the `TOKENS_UPDATED` topic: the `tokensUpdated`
payload, an array of token snapshots. -/
abbrev Batch := List Token

/-- Per-batch filtering done inside the subscription iterator:
`allUpdatedTokens.filter(token => upperSymbols.includes(token.symbol))`. -/
def filterBatch (upperSymbols : List String) (b : Batch) : Batch :=
  b.filter (fun t => upperSymbols.contains t.symbol)

/-- One turn of the `while (true)` loop body applied to one raw batch:
yield the filtered batch when non-empty, otherwise nothing (loop again). -/
def yieldBatch (upperSymbols : List String) (b : Batch) : Option Batch :=
  if (filterBatch upperSymbols b).isEmpty then none
  else some (filterBatch upperSymbols b)

/-- The stream a subscriber observes, as a function of the raw batch
sequence its topic attachment receives: the iterator pulls raw batches in
order, filters each, yields non-empty results and silently skips the rest. -/
def drain (upperSymbols : List String) (raw : List Batch) : List Batch :=
  match raw with
  | [] => []
  | b :: rest =>
    if (filterBatch upperSymbols b).isEmpty then drain upperSymbols rest
    else filterBatch upperSymbols b :: drain upperSymbols rest

/-- Result of calling the `Subscription.tokensUpdated.subscribe` resolver.
The source unconditionally builds the filtered iterator over a fresh
attachment to the `TOKENS_UPDATED` topic; the `rejected` constructor exists
only to state the error behaviour the specification describes, and is never
produced by the code. -/
inductive SubscribeOutcome where
  | attached (upperSymbols : List String)
  | rejected
deriving DecidableEq, Repr

/-- The `subscribe` resolver: uppercase the requested symbols and attach a
filtered iterator to the topic.  No validation is performed on `symbols`. -/
def tokensUpdatedSubscribe (symbols : List String) : SubscribeOutcome :=
  SubscribeOutcome.attached (symbols.map toUpperCase)

/-- Rounding to two decimal places: `Math.round(x * 100) / 100`.
`Math.round` rounds half toward positive infinity, which is Mathlib
`round` on rationals (`round q = ⌊q + 1/2⌋`). -/
def round2 (q : ℚ) : ℚ := (round (q * 100) : ℚ) / 100

/-- One loop body of `symbolsToUpdate.forEach`, applied to the token record:
`price = round(price * (1 + (r1 - 0.5) * 0.04) * 100) / 100` and
`change24h = round((change24h + (r2 - 0.5) * 0.5) * 100) / 100`,
where `r1`, `r2` are the two `Math.random()` draws for this symbol. -/
def mutateToken (r1 r2 : ℚ) (t : Token) : Token :=
  { t with
    price := round2 (t.price * (1 + (r1 - 1/2) * (4/100))),
    change24h := round2 (t.change24h + (r2 - 1/2) * (1/2)) }

/-- In-place field assignment on the store object: replace the record held
at key `k` (the key set and the entry order are unchanged). -/
def setEntry (store : Store) (k : String) (t : Token) : Store :=
  store.map (fun p => if p.1 = k then (k, t) else p)

/-- The `forEach` over `symbolsToUpdate`: for each chosen symbol in order,
mutate the record in the store and push a copy (`{ ...token }`) of the
freshly mutated record onto `updatedTokens`.  Returns the store after all
mutations together with the accumulated batch.  A symbol absent from the
store is skipped (unreachable in the source, where the chosen symbols come
from `Object.keys(tokens)`).  `rand` gives the two `Math.random()` draws
consumed for each symbol. -/
def tickStep (rand : String → ℚ × ℚ) (store : Store) : List String → Store × Batch
  | [] => (store, [])
  | s :: rest =>
    match store.lookup s with
    | none => tickStep rand store rest
    | some t =>
      let t2 := mutateToken (rand s).1 (rand s).2 t
      let out := tickStep rand (setEntry store s t2) rest
      (out.1, t2 :: out.2)

/-- Number of tokens to update this tick: `Math.random() < 0.5 ? 1 : 2`.
`coin` is true when the draw fell below one half. -/
def numToUpdate (coin : Bool) : Nat := if coin then 1 else 2

/-- The chosen symbols: `shuffled.slice(0, numToUpdate)`, where `shuffled`
is the (biased, but always a permutation) shuffle of `Object.keys(tokens)`. -/
def chosenSymbols (coin : Bool) (shuffled : List String) : List String :=
  shuffled.take (numToUpdate coin)

/-- One tick of `simulatePriceUpdates`: choose 1 or 2 symbols from the
shuffled key list, mutate each chosen record, and publish the batch of
post-mutation snapshots on the `TOKENS_UPDATED` topic. -/
def simulateTick (coin : Bool) (shuffled : List String) (rand : String → ℚ × ℚ)
    (store : Store) : Store × Batch :=
  tickStep rand store (chosenSymbols coin shuffled)

/-- Randomness consumed by one tick: the 1-or-2 coin, the shuffle result,
and the per-symbol mutation draws. -/
structure TickRand where
  coin : Bool
  shuffled : List String
  rand : String → ℚ × ℚ

/-- Repeated ticks of the interval timer: thread the store through
successive ticks and collect every published batch in publish order. -/
def evolve (store : Store) : List TickRand → Store × List Batch
  | [] => (store, [])
  | p :: rest =>
    let out := simulateTick p.coin p.shuffled p.rand store
    let next := evolve out.1 rest
    (next.1, out.2 :: next.2)

/-- Identity-carrying fields of a token: everything except the two mutable
numeric fields. -/
def idFields (t : Token) : String × String × String :=
  (t.tokenResourceId, t.symbol, t.name)

/-- Modelled from the spec wording for comparison with the code: the
Subscription Request holds a "set of either raw ids or symbols, resolved
at subscribe time to a canonical set of ids", where an identifier "may be
matched by id or by case-normalized symbol".  An identifier equal to the
id of a store record resolves to that id; otherwise it is case-normalized
and resolved as a symbol, yielding the id of the record it reaches;
identifiers resolving to no entity contribute nothing. -/
def requestedIds (S : List String) (store : Store) : List String :=
  S.filterMap (fun ident =>
    if store.any (fun p => p.2.tokenResourceId == ident) then some ident
    else (store.lookup (toUpperCase ident)).map Token.tokenResourceId)

/-- Mutation touches only `price` and `change24h`. -/
theorem idFields_mutateToken (r1 r2 : ℚ) (t : Token) :
    idFields (mutateToken r1 r2 t) = idFields t := rfl

/-- Lookup on a cons, with propositional equality on the key. -/
theorem lookup_cons_eq (k a : String) (v : Token) (rest : Store) :
    List.lookup a ((k, v) :: rest)
      = if a = k then some v else List.lookup a rest := by
  rw [List.lookup_cons]
  by_cases h : a = k
  · simp [h]
  · rw [show (a == k) = false by simpa using h, if_neg h]

/-- A successful lookup exhibits a store entry. -/
theorem lookup_mem {store : Store} {a : String} {b : Token}
    (h : store.lookup a = some b) : (a, b) ∈ store := by
  induction store with
  | nil => simp [List.lookup] at h
  | cons p rest ih =>
    obtain ⟨k₀, v₀⟩ := p
    rw [lookup_cons_eq] at h
    by_cases hk : a = k₀
    · subst hk
      rw [if_pos rfl] at h
      obtain rfl : v₀ = b := by simpa using h
      exact List.mem_cons_self _ _
    · rw [if_neg hk] at h
      exact List.mem_cons_of_mem _ (ih h)

/-- Keys present in the store have a successful lookup. -/
theorem lookup_isSome_of_mem_keys {store : Store} {a : String}
    (h : a ∈ store.map Prod.fst) : (store.lookup a).isSome := by
  induction store with
  | nil => simp at h
  | cons p rest ih =>
    obtain ⟨k₀, v₀⟩ := p
    rw [lookup_cons_eq]
    by_cases hk : a = k₀
    · simp [hk]
    · rw [if_neg hk]
      apply ih
      simp only [List.map_cons, List.mem_cons] at h
      rcases h with h | h
      · exact absurd h hk
      · exact h

/-- Replacing the record at one key does not change other lookups. -/
theorem lookup_setEntry_ne (store : Store) {k k' : String} (t : Token)
    (h : k' ≠ k) : (setEntry store k t).lookup k' = store.lookup k' := by
  induction store with
  | nil => rfl
  | cons p rest ih =>
    obtain ⟨k₀, v₀⟩ := p
    by_cases hk : k₀ = k
    · show List.lookup k' ((if k₀ = k then (k, t) else (k₀, v₀)) :: setEntry rest k t) = _
      rw [if_pos hk, lookup_cons_eq, lookup_cons_eq, if_neg h, hk, if_neg h]
      exact ih
    · show List.lookup k' ((if k₀ = k then (k, t) else (k₀, v₀)) :: setEntry rest k t) = _
      rw [if_neg hk, lookup_cons_eq, lookup_cons_eq]
      by_cases hb : k' = k₀
      · simp [hb]
      · rw [if_neg hb, if_neg hb]
        exact ih

/-- Replacing the record at a key makes its lookup return the new record,
provided the key was present. -/
theorem lookup_setEntry_self (store : Store) (k : String) (t : Token) :
    (setEntry store k t).lookup k = (store.lookup k).map (fun _ => t) := by
  induction store with
  | nil => rfl
  | cons p rest ih =>
    obtain ⟨k₀, v₀⟩ := p
    by_cases hk : k₀ = k
    · show List.lookup k ((if k₀ = k then (k, t) else (k₀, v₀)) :: setEntry rest k t) = _
      rw [if_pos hk, lookup_cons_eq, lookup_cons_eq, if_pos rfl, ← hk, if_pos rfl]
      rfl
    · show List.lookup k ((if k₀ = k then (k, t) else (k₀, v₀)) :: setEntry rest k t) = _
      rw [if_neg hk, lookup_cons_eq, lookup_cons_eq,
        if_neg (fun hq => hk hq.symm), if_neg (fun hq => hk hq.symm)]
      exact ih

/-- Replacing a record leaves the key list unchanged. -/
theorem setEntry_keys (store : Store) (k : String) (t : Token) :
    (setEntry store k t).map Prod.fst = store.map Prod.fst := by
  induction store with
  | nil => rfl
  | cons p rest ih =>
    simp only [setEntry, List.map_cons] at ih ⊢
    by_cases hk : p.1 = k <;> simp [hk, ih]

/-- The observed stream is the filter-map of the raw stream through the
per-batch yield step. -/
theorem drain_eq_filterMap (upperSymbols : List String) (raw : List Batch) :
    drain upperSymbols raw = raw.filterMap (yieldBatch upperSymbols) := by
  induction raw with
  | nil => rfl
  | cons b rest ih =>
    rw [drain, List.filterMap_cons]
    cases h : (filterBatch upperSymbols b).isEmpty with
    | true => simp [yieldBatch, h, ih]
    | false => simp [yieldBatch, h, ih]

/-- The observed stream is also the per-batch filtered raw stream with the
empty results dropped. -/
theorem drain_eq_filter_map (upperSymbols : List String) (raw : List Batch) :
    drain upperSymbols raw
      = (raw.map (filterBatch upperSymbols)).filter (fun fb => !fb.isEmpty) := by
  induction raw with
  | nil => rfl
  | cons b rest ih =>
    rw [drain, List.map_cons, List.filter_cons]
    cases h : (filterBatch upperSymbols b).isEmpty with
    | true => simp [h, ih]
    | false => simp [h, ih]

/-- Replacing a record with one sharing its identity fields preserves the
identity fields seen through every lookup. -/
theorem lookup_setEntry_idFields {store : Store} {s : String} {t0 t2 : Token}
    (hs : store.lookup s = some t0) (hid : idFields t2 = idFields t0)
    (k : String) :
    ((setEntry store s t2).lookup k).map idFields
      = (store.lookup k).map idFields := by
  by_cases hk : k = s
  · subst hk
    rw [lookup_setEntry_self, hs]
    simp [hid]
  · rw [lookup_setEntry_ne store t2 hk]

/-- Equation for a chosen symbol absent from the store (skipped). -/
theorem tickStep_cons_none {rand : String → ℚ × ℚ} {store : Store}
    {s : String} {rest : List String} (h : store.lookup s = none) :
    tickStep rand store (s :: rest) = tickStep rand store rest := by
  rw [tickStep, h]

/-- Equation for a chosen symbol present in the store: mutate the record in
place, then continue, consing the fresh snapshot onto the batch. -/
theorem tickStep_cons_some {rand : String → ℚ × ℚ} {store : Store}
    {s : String} {rest : List String} {t : Token}
    (h : store.lookup s = some t) :
    tickStep rand store (s :: rest)
      = ((tickStep rand
            (setEntry store s (mutateToken (rand s).1 (rand s).2 t)) rest).1,
         mutateToken (rand s).1 (rand s).2 t
           :: (tickStep rand
                (setEntry store s (mutateToken (rand s).1 (rand s).2 t)) rest).2) := by
  rw [tickStep, h]

/-- A tick leaves the key list of the store unchanged. -/
theorem tickStep_keys (rand : String → ℚ × ℚ) (store : Store)
    (syms : List String) :
    ((tickStep rand store syms).1).map Prod.fst = store.map Prod.fst := by
  induction syms generalizing store with
  | nil => rfl
  | cons s rest ih =>
    cases hs : store.lookup s with
    | none => rw [tickStep_cons_none hs]; exact ih store
    | some t =>
      rw [tickStep_cons_some hs]
      rw [ih (setEntry store s (mutateToken (rand s).1 (rand s).2 t))]
      exact setEntry_keys store s _

/-- A tick preserves the identity fields of every store record. -/
theorem tickStep_lookup_idFields (rand : String → ℚ × ℚ) (store : Store)
    (syms : List String) (k : String) :
    (((tickStep rand store syms).1).lookup k).map idFields
      = (store.lookup k).map idFields := by
  induction syms generalizing store with
  | nil => rfl
  | cons s rest ih =>
    cases hs : store.lookup s with
    | none => rw [tickStep_cons_none hs]; exact ih store
    | some t =>
      rw [tickStep_cons_some hs]
      rw [ih (setEntry store s (mutateToken (rand s).1 (rand s).2 t))]
      exact lookup_setEntry_idFields hs (idFields_mutateToken _ _ t) k

/-- A record whose key was not chosen this tick is completely unchanged. -/
theorem tickStep_lookup_not_mem (rand : String → ℚ × ℚ) (store : Store)
    {syms : List String} {k : String} (h : k ∉ syms) :
    ((tickStep rand store syms).1).lookup k = store.lookup k := by
  induction syms generalizing store with
  | nil => rfl
  | cons s rest ih =>
    have hk : k ≠ s := fun hq => h (hq ▸ List.mem_cons_self s rest)
    have hrest : k ∉ rest := fun hq => h (List.mem_cons_of_mem s hq)
    cases hs : store.lookup s with
    | none => rw [tickStep_cons_none hs]; exact ih store hrest
    | some t =>
      rw [tickStep_cons_some hs]
      rw [ih (setEntry store s (mutateToken (rand s).1 (rand s).2 t)) hrest]
      exact lookup_setEntry_ne store _ hk

/-- With pairwise-distinct chosen symbols, the published batch is the list
of mutated records of the resolvable chosen symbols, in choice order,
where each record is read from the store as it stood at tick start. -/
theorem tickStep_batch (rand : String → ℚ × ℚ) (store : Store)
    {syms : List String} (hnd : syms.Nodup) :
    (tickStep rand store syms).2
      = syms.filterMap (fun s =>
          (store.lookup s).map (fun t => mutateToken (rand s).1 (rand s).2 t)) := by
  induction syms generalizing store with
  | nil => rfl
  | cons s rest ih =>
    have hs_rest : s ∉ rest := (List.nodup_cons.mp hnd).1
    have hnd_rest : rest.Nodup := (List.nodup_cons.mp hnd).2
    rw [List.filterMap_cons]
    cases hs : store.lookup s with
    | none =>
      rw [tickStep_cons_none hs]
      simp only [Option.map_none']
      exact ih store hnd_rest
    | some t =>
      rw [tickStep_cons_some hs]
      simp only [Option.map_some']
      rw [ih (setEntry store s (mutateToken (rand s).1 (rand s).2 t)) hnd_rest]
      congr 1
      apply List.filterMap_congr
      intro a ha
      have hne : a ≠ s := by
        intro hq
        subst hq
        exact hs_rest ha
      rw [lookup_setEntry_ne store _ hne]

/-- With pairwise-distinct chosen symbols, every batch entry equals the
post-tick store record at some chosen key: batches are full post-mutation
snapshots. -/
theorem tickStep_snapshot (rand : String → ℚ × ℚ) (store : Store)
    {syms : List String} (hnd : syms.Nodup) :
    ∀ t ∈ (tickStep rand store syms).2,
      ∃ s ∈ syms, ((tickStep rand store syms).1).lookup s = some t := by
  induction syms generalizing store with
  | nil => intro t ht; simp [tickStep] at ht
  | cons s rest ih =>
    have hs_rest : s ∉ rest := (List.nodup_cons.mp hnd).1
    have hnd_rest : rest.Nodup := (List.nodup_cons.mp hnd).2
    intro t ht
    cases hs : store.lookup s with
    | none =>
      rw [tickStep_cons_none hs] at ht ⊢
      obtain ⟨s', hs', hl⟩ := ih store hnd_rest t ht
      exact ⟨s', List.mem_cons_of_mem s hs', hl⟩
    | some t0 =>
      rw [tickStep_cons_some hs] at ht ⊢
      simp only [List.mem_cons] at ht
      rcases ht with rfl | ht
      · refine ⟨s, List.mem_cons_self s rest, ?_⟩
        show ((tickStep rand
            (setEntry store s (mutateToken (rand s).1 (rand s).2 t0)) rest).1).lookup s
          = _
        rw [tickStep_lookup_not_mem rand _ hs_rest,
          lookup_setEntry_self, hs]
        rfl
      · obtain ⟨s', hs', hl⟩ :=
          ih (setEntry store s (mutateToken (rand s).1 (rand s).2 t0)) hnd_rest t ht
        exact ⟨s', List.mem_cons_of_mem s hs', hl⟩

/-- Every batch entry published by a tick shares its identity fields with
some record of the tick-start store. -/
theorem tickStep_batch_idFields (rand : String → ℚ × ℚ) (store : Store)
    (syms : List String) :
    ∀ t ∈ (tickStep rand store syms).2,
      ∃ s, (store.lookup s).map idFields = some (idFields t) := by
  induction syms generalizing store with
  | nil => intro t ht; simp [tickStep] at ht
  | cons s rest ih =>
    intro t ht
    cases hs : store.lookup s with
    | none =>
      rw [tickStep_cons_none hs] at ht
      exact ih store t ht
    | some t0 =>
      rw [tickStep_cons_some hs] at ht
      simp only [List.mem_cons] at ht
      rcases ht with rfl | ht
      · exact ⟨s, by rw [hs]; rfl⟩
      · obtain ⟨s', hl⟩ :=
          ih (setEntry store s (mutateToken (rand s).1 (rand s).2 t0)) t ht
        refine ⟨s', ?_⟩
        rw [← lookup_setEntry_idFields hs (idFields_mutateToken _ _ t0) s', hl]

/-- Repeated ticks preserve the identity fields of every store record. -/
theorem evolve_lookup_idFields (store : Store) (ticks : List TickRand)
    (k : String) :
    (((evolve store ticks).1).lookup k).map idFields
      = (store.lookup k).map idFields := by
  induction ticks generalizing store with
  | nil => rfl
  | cons p rest ih =>
    rw [evolve]
    simp only []
    rw [ih, simulateTick, tickStep_lookup_idFields]

/-- Every entity inside any batch published over the process lifetime
shares its identity fields with some record of the initial store. -/
theorem evolve_batch_idFields (store : Store) (ticks : List TickRand) :
    ∀ b ∈ (evolve store ticks).2, ∀ t ∈ b,
      ∃ s, (store.lookup s).map idFields = some (idFields t) := by
  induction ticks generalizing store with
  | nil => intro b hb; simp [evolve] at hb
  | cons p rest ih =>
    intro b hb t ht
    rw [evolve] at hb
    simp only [List.mem_cons] at hb
    rcases hb with rfl | hb
    · exact tickStep_batch_idFields p.rand store _ t ht
    · obtain ⟨s, hl⟩ := ih (simulateTick p.coin p.shuffled p.rand store).1 b hb t ht
      refine ⟨s, ?_⟩
      rw [← hl, simulateTick, tickStep_lookup_idFields]

/-- Membership test used by the filter, as a decidable membership. -/
theorem contains_eq_decide_mem (l : List String) (a : String) :
    l.contains a = decide (a ∈ l) :=
  List.elem_eq_mem a l

/-- C6: for any single subscriber, the yielded stream is an
order-preserving selection from the raw publish sequence: it equals the
filter-map of the raw stream through the per-batch yield step, equals the
per-batch filtered raw stream with empty results dropped, and is a
sublist of the per-batch filtered raw stream (each yielded batch comes
from a distinct raw batch, at most one per raw batch, in publish order). -/
theorem c6_stream_is_filterMap (upperSymbols : List String)
    (raw : List Batch) :
    drain upperSymbols raw = raw.filterMap (yieldBatch upperSymbols) ∧
    drain upperSymbols raw
      = (raw.map (filterBatch upperSymbols)).filter (fun fb => !fb.isEmpty) ∧
    List.Sublist (drain upperSymbols raw)
      (raw.map (filterBatch upperSymbols)) :=
  ⟨drain_eq_filterMap upperSymbols raw, drain_eq_filter_map upperSymbols raw, by
    rw [drain_eq_filter_map]
    exact List.filter_sublist _⟩

/-- C3 counterexample: the token query resolves `"btc"` and `"BTC"` to the
BTC entity, but resolving by the entity id `"token:bitcoin:native"`
returns not-found, contradicting the claimed identifier-vs-symbol
resolution equivalence. -/
theorem c3_counterexample :
    queryToken tokens0 "btc" = some btcToken ∧
    queryToken tokens0 "BTC" = some btcToken ∧
    queryToken tokens0 "token:bitcoin:native" = none :=
  ⟨rfl, rfl, rfl⟩

/-- C3 amended: the token query matches identifiers by case-normalized
symbol only; `"btc"` and `"BTC"` both resolve to the entity whose id is
`"token:bitcoin:native"`, but passing that id itself is not resolved. -/
theorem c3_amended_symbol_only_lookup :
    (∃ t : Token,
      queryToken tokens0 "btc" = some t ∧
      queryToken tokens0 "BTC" = some t ∧
      t.tokenResourceId = "token:bitcoin:native") ∧
    queryToken tokens0 "token:bitcoin:native" = none :=
  ⟨⟨btcToken, rfl, rfl, rfl⟩, rfl⟩

/-- C4 counterexample: a subscribe call with an empty requested identity
set is not rejected at subscribe time; the resolver attaches a filtered
iterator to the topic unconditionally. -/
theorem c4_counterexample :
    tokensUpdatedSubscribe [] ≠ SubscribeOutcome.rejected ∧
    tokensUpdatedSubscribe [] = SubscribeOutcome.attached [] := by
  refine ⟨?_, rfl⟩
  intro h
  simp [tokensUpdatedSubscribe] at h

/-- C4 amended: no validation of the requested identity set happens at
subscribe time — every subscribe call, the empty one included, attaches a
filter to the topic, and the filter built from an empty set never yields
a batch. -/
theorem c4_no_subscribe_validation (symbols : List String) :
    tokensUpdatedSubscribe symbols
        = SubscribeOutcome.attached (symbols.map toUpperCase) ∧
    (symbols = [] → ∀ raw : List Batch,
      drain (symbols.map toUpperCase) raw = []) := by
  refine ⟨rfl, ?_⟩
  rintro rfl raw
  rw [drain_eq_filter_map]
  rw [List.filter_eq_nil_iff.mpr]
  intro fb hfb
  obtain ⟨b, _, rfl⟩ := List.mem_map.mp hfb
  simp [filterBatch, List.contains]

/-- C4 witness. -/
theorem c4_no_subscribe_validation_witness :
    tokensUpdatedSubscribe ([] : List String)
        = SubscribeOutcome.attached (([] : List String).map toUpperCase) ∧
    drain (([] : List String).map toUpperCase) [[ethToken], [solToken]] = [] :=
  ⟨(c4_no_subscribe_validation []).1,
   (c4_no_subscribe_validation []).2 rfl [[ethToken], [solToken]]⟩

/-- C10: subscribing with an empty requested list, or one whose
identifiers match no entity of the store, does not error: the resolver
attaches a filter, and over any raw batch sequence whose entities all
carry store symbols, the filtered stream yields nothing. -/
theorem c10_unmatched_subscription_silent (symbols : List String)
    (store : Store) (raw : List Batch)
    (hunres : ∀ s ∈ symbols, store.lookup (toUpperCase s) = none)
    (hraw : ∀ b ∈ raw, ∀ t ∈ b, (store.lookup t.symbol).isSome = true) :
    tokensUpdatedSubscribe symbols
        = SubscribeOutcome.attached (symbols.map toUpperCase) ∧
    drain (symbols.map toUpperCase) raw = [] := by
  refine ⟨rfl, ?_⟩
  rw [drain_eq_filter_map]
  rw [List.filter_eq_nil_iff.mpr]
  intro fb hfb
  obtain ⟨b, hbmem, rfl⟩ := List.mem_map.mp hfb
  have hempty : filterBatch (symbols.map toUpperCase) b = [] := by
    rw [filterBatch]
    rw [List.filter_eq_nil_iff.mpr]
    intro t ht hcon
    have hmem : t.symbol ∈ symbols.map toUpperCase :=
      List.mem_of_elem_eq_true hcon
    obtain ⟨s, hsmem, hseq⟩ := List.mem_map.mp hmem
    have h1 := hunres s hsmem
    rw [hseq] at h1
    have h2 := hraw b hbmem t ht
    rw [h1] at h2
    simp at h2
  simp [hempty]

/-- C10 witness. -/
theorem c10_unmatched_subscription_silent_witness :
    tokensUpdatedSubscribe ["DOGE"]
        = SubscribeOutcome.attached (["DOGE"].map toUpperCase) ∧
    drain (["DOGE"].map toUpperCase) [[ethToken], [btcToken, solToken]]
      = [] :=
  c10_unmatched_subscription_silent ["DOGE"] tokens0
    [[ethToken], [btcToken, solToken]] (by decide) (by decide)

/-- Requested sets containing no raw entity id resolve purely by
case-normalized symbol lookup. -/
theorem requestedIds_eq_symbol_resolution (S : List String) (store : Store)
    (hnotid : ∀ s ∈ S, ∀ p ∈ store, p.2.tokenResourceId ≠ s) :
    requestedIds S store
      = (S.map toUpperCase).filterMap
          (fun u => (store.lookup u).map Token.tokenResourceId) := by
  rw [requestedIds, List.filterMap_map]
  apply List.filterMap_congr
  intro ident hident
  have hany : store.any (fun p => p.2.tokenResourceId == ident) = false := by
    apply List.any_eq_false.mpr
    intro p hp
    simp only [beq_iff_eq]
    exact hnotid ident hident p hp
  rw [hany]
  rfl

/-- Pointwise agreement between the symbol-membership test the code uses
and membership of the entity id in the resolved requested id set, for a
batch entity consistent with the store (its symbol looks up a record
carrying its id) when distinct store entries never share an id and no
requested identifier is a raw entity id. -/
theorem symbol_mem_iff_id_mem (S : List String) (store : Store) (t : Token)
    (hconsT : (store.lookup t.symbol).map Token.tokenResourceId
        = some t.tokenResourceId)
    (hinj : ∀ p ∈ store, ∀ q ∈ store,
      p.2.tokenResourceId = q.2.tokenResourceId → p.1 = q.1)
    (hnotid : ∀ s ∈ S, ∀ p ∈ store, p.2.tokenResourceId ≠ s) :
    t.symbol ∈ S.map toUpperCase
      ↔ t.tokenResourceId ∈ requestedIds S store := by
  rw [requestedIds_eq_symbol_resolution S store hnotid]
  obtain ⟨t0, hl0, hid0⟩ := Option.map_eq_some'.mp hconsT
  constructor
  · intro hmem
    exact List.mem_filterMap.mpr
      ⟨t.symbol, hmem, by rw [hl0, Option.map_some', hid0]⟩
  · intro hmem
    obtain ⟨u, humem, hu⟩ := List.mem_filterMap.mp hmem
    obtain ⟨t1, hl1, hid1⟩ := Option.map_eq_some'.mp hu
    have h1 := lookup_mem hl1
    have h0 := lookup_mem hl0
    have hkey : u = t.symbol := hinj _ h1 _ h0 (by rw [hid1, hid0])
    rwa [hkey] at humem

/-- C1 counterexample: a requested set holding the raw entity id of BTC.
The spec-side resolution puts that id in the canonical requested id set,
so the id-intersection with the batch `[btcToken]` is the whole batch, yet
the code filters by uppercased symbol and yields nothing. -/
theorem c1_counterexample :
    yieldBatch (["token:bitcoin:native"].map toUpperCase) [btcToken] = none ∧
    requestedIds ["token:bitcoin:native"] tokens0
      = ["token:bitcoin:native"] ∧
    [btcToken].filter
        (fun t => (requestedIds ["token:bitcoin:native"] tokens0).contains
          t.tokenResourceId)
      = [btcToken] :=
  ⟨rfl, rfl, rfl⟩

/-- C1 amended: for a filter created with a requested set `S` none of
whose identifiers is a raw entity id (so each resolves by case-normalized
symbol, if at all), over a store in which every batch entity is
consistent (symbol lookup reaches a record carrying the id of that
entity) and ids are unique, the filtered batch equals exactly the
entities of the raw batch whose id lies in the resolved requested id set,
in raw-batch order, and a batch is yielded iff that id-intersection is
non-empty.  For a requested set holding a raw id the equivalence fails:
the code matches by symbol only. -/
theorem c1_filter_is_id_intersection (S : List String) (store : Store)
    (B : Batch)
    (hcons : ∀ t ∈ B, (store.lookup t.symbol).map Token.tokenResourceId
        = some t.tokenResourceId)
    (hinj : ∀ p ∈ store, ∀ q ∈ store,
      p.2.tokenResourceId = q.2.tokenResourceId → p.1 = q.1)
    (hnotid : ∀ s ∈ S, ∀ p ∈ store, p.2.tokenResourceId ≠ s) :
    filterBatch (S.map toUpperCase) B
        = B.filter
            (fun t => (requestedIds S store).contains t.tokenResourceId) ∧
    yieldBatch (S.map toUpperCase) B
        = (if B.filter
              (fun t => (requestedIds S store).contains t.tokenResourceId)
              = []
           then none
           else some (B.filter
              (fun t => (requestedIds S store).contains t.tokenResourceId))) := by
  have hfb : filterBatch (S.map toUpperCase) B
      = B.filter (fun t => (requestedIds S store).contains t.tokenResourceId) := by
    rw [filterBatch]
    apply List.filter_congr
    intro t ht
    rw [contains_eq_decide_mem, contains_eq_decide_mem]
    exact decide_eq_decide.mpr
      (symbol_mem_iff_id_mem S store t (hcons t ht) hinj hnotid)
  refine ⟨hfb, ?_⟩
  rw [yieldBatch, hfb]
  by_cases h : B.filter
      (fun t => (requestedIds S store).contains t.tokenResourceId) = []
  · have hq : (B.filter
        (fun t => (requestedIds S store).contains t.tokenResourceId)).isEmpty
        = true := by rw [h]; rfl
    rw [if_pos hq, if_pos h]
  · have hq : ¬ ((B.filter
        (fun t => (requestedIds S store).contains t.tokenResourceId)).isEmpty
        = true) := fun hq => h (List.isEmpty_iff.mp hq)
    rw [if_neg hq, if_neg h]

/-- C1 witness. -/
theorem c1_filter_is_id_intersection_witness :
    filterBatch (["eth"].map toUpperCase) [btcToken, ethToken]
        = [btcToken, ethToken].filter
            (fun t => (requestedIds ["eth"] tokens0).contains t.tokenResourceId) ∧
    yieldBatch (["eth"].map toUpperCase) [btcToken, ethToken]
        = (if [btcToken, ethToken].filter
              (fun t => (requestedIds ["eth"] tokens0).contains t.tokenResourceId)
              = []
           then none
           else some ([btcToken, ethToken].filter
              (fun t => (requestedIds ["eth"] tokens0).contains t.tokenResourceId))) :=
  c1_filter_is_id_intersection ["eth"] tokens0 [btcToken, ethToken]
    (by decide) (by decide) (by decide)

/-- C2: over any tick sequence from a store whose records are keyed by
their own uppercase symbol, the id seen through the query boundary for
any identifier is the same after the ticks as before them, and every
entity of every published batch carries exactly the id the query boundary
emits for the symbol of that entity. -/
theorem c2_identity_merge (store : Store) (ticks : List TickRand)
    (hsym : ∀ p ∈ store, p.2.symbol = p.1)
    (hupper : ∀ p ∈ store, toUpperCase p.1 = p.1) :
    (∀ q : String,
      (queryToken (evolve store ticks).1 q).map Token.tokenResourceId
        = (queryToken store q).map Token.tokenResourceId) ∧
    (∀ b ∈ (evolve store ticks).2, ∀ t ∈ b,
      (queryToken store t.symbol).map Token.tokenResourceId
        = some t.tokenResourceId) := by
  constructor
  · intro q
    rw [queryToken, queryToken]
    have h := evolve_lookup_idFields store ticks (toUpperCase q)
    have h2 := congrArg (Option.map Prod.fst) h
    rw [Option.map_map, Option.map_map] at h2
    exact h2
  · intro b hb t ht
    obtain ⟨s, hl⟩ := evolve_batch_idFields store ticks b hb t ht
    obtain ⟨t0, hl0, hid0⟩ := Option.map_eq_some'.mp hl
    have hmem := lookup_mem hl0
    have hsymb : t0.symbol = s := hsym _ hmem
    have hup : toUpperCase s = s := hupper _ hmem
    have hidc : t0.tokenResourceId = t.tokenResourceId :=
      congrArg Prod.fst hid0
    have hsymc : t0.symbol = t.symbol :=
      congrArg (fun x => x.2.1) hid0
    rw [queryToken, ← hsymc, hsymb, hup, hl0, Option.map_some', hidc]

/-- C2 witness. -/
theorem c2_identity_merge_witness :
    (queryToken (evolve tokens0
        [⟨false, ["ETH", "BTC", "SOL"], fun _ => (0, 0)⟩]).1 "btc").map
        Token.tokenResourceId
      = (queryToken tokens0 "btc").map Token.tokenResourceId :=
  (c2_identity_merge tokens0 [⟨false, ["ETH", "BTC", "SOL"], fun _ => (0, 0)⟩]
    (by decide) (by decide)).1 "btc"

/-- C7: a tick never adds or removes store keys, preserves the id, symbol
and name of every record, and leaves the records at unchosen keys
completely untouched — only price and change24h of chosen entities move. -/
theorem c7_tick_frame (coin : Bool) (shuffled : List String)
    (rand : String → ℚ × ℚ) (store : Store) :
    ((simulateTick coin shuffled rand store).1).map Prod.fst
        = store.map Prod.fst ∧
    (∀ k : String,
      (((simulateTick coin shuffled rand store).1).lookup k).map idFields
        = (store.lookup k).map idFields) ∧
    (∀ k : String, k ∉ chosenSymbols coin shuffled →
      ((simulateTick coin shuffled rand store).1).lookup k
        = store.lookup k) :=
  ⟨tickStep_keys rand store (chosenSymbols coin shuffled),
   fun k => tickStep_lookup_idFields rand store (chosenSymbols coin shuffled) k,
   fun _ hk => tickStep_lookup_not_mem rand store hk⟩

/-- C7 witness. -/
theorem c7_tick_frame_witness :
    ((simulateTick true ["ETH", "BTC", "SOL"] (fun _ => (0, 0)) tokens0).1).lookup
        "SOL"
      = tokens0.lookup "SOL" :=
  (c7_tick_frame true ["ETH", "BTC", "SOL"] (fun _ => (0, 0)) tokens0).2.2
    "SOL" (by decide)

/-- C8: with distinct store keys and the shuffle a permutation of them,
every entity of the published batch equals, field for field, the record
the store holds at some chosen key at the end of the tick — a complete
post-mutation snapshot, not a diff and not a pre-mutation value. -/
theorem c8_batch_is_post_mutation_snapshot (coin : Bool)
    (shuffled : List String) (rand : String → ℚ × ℚ) (store : Store)
    (hkeys : (store.map Prod.fst).Nodup)
    (hperm : shuffled.Perm (store.map Prod.fst)) :
    ∀ t ∈ (simulateTick coin shuffled rand store).2,
      ∃ s ∈ chosenSymbols coin shuffled,
        ((simulateTick coin shuffled rand store).1).lookup s = some t := by
  have hnd_sh : shuffled.Nodup := hperm.nodup_iff.mpr hkeys
  have hnd : (chosenSymbols coin shuffled).Nodup :=
    List.Nodup.sublist (List.take_sublist _ _) hnd_sh
  exact tickStep_snapshot rand store hnd

/-- C8 witness. -/
theorem c8_batch_is_post_mutation_snapshot_witness :
    ∃ s ∈ chosenSymbols true ["ETH", "BTC", "SOL"],
      ((simulateTick true ["ETH", "BTC", "SOL"] (fun _ => (0, 0)) tokens0).1).lookup s
        = some (mutateToken 0 0 ethToken) :=
  c8_batch_is_post_mutation_snapshot true ["ETH", "BTC", "SOL"]
    (fun _ => (0, 0)) tokens0 (by decide) (by decide)
    (mutateToken 0 0 ethToken) (List.mem_cons_self _ _)

/-- Length of a filter-map whose function succeeds on every element. -/
theorem length_filterMap_isSome {α β : Type} (f : α → Option β) (l : List α)
    (h : ∀ a ∈ l, (f a).isSome = true) :
    (l.filterMap f).length = l.length := by
  induction l with
  | nil => rfl
  | cons a rest ih =>
    rw [List.filterMap_cons]
    cases hf : f a with
    | none =>
      have hcontra := h a (List.mem_cons_self a rest)
      rw [hf] at hcontra
      simp at hcontra
    | some b =>
      show (b :: rest.filterMap f).length = rest.length + 1
      rw [List.length_cons,
        ih (fun x hx => h x (List.mem_cons_of_mem a hx))]

/-- C5: from a non-empty store with distinct keys and distinct ids, and a
shuffle that is a permutation of the keys, every published batch is
non-empty, has exactly 1 or 2 entities, and its entities carry
pairwise-distinct ids. -/
theorem c5_batches_nonempty_bounded_distinct (coin : Bool)
    (shuffled : List String) (rand : String → ℚ × ℚ) (store : Store)
    (hkeys : (store.map Prod.fst).Nodup)
    (hids : (store.map (fun p => p.2.tokenResourceId)).Nodup)
    (hperm : shuffled.Perm (store.map Prod.fst))
    (hne : store ≠ []) :
    (simulateTick coin shuffled rand store).2 ≠ [] ∧
    ((simulateTick coin shuffled rand store).2.length = 1 ∨
      (simulateTick coin shuffled rand store).2.length = 2) ∧
    ((simulateTick coin shuffled rand store).2.map
        Token.tokenResourceId).Nodup := by
  have hnd_sh : shuffled.Nodup := hperm.nodup_iff.mpr hkeys
  have hnd : (chosenSymbols coin shuffled).Nodup :=
    List.Nodup.sublist (List.take_sublist _ _) hnd_sh
  have hsome : ∀ s ∈ chosenSymbols coin shuffled,
      (store.lookup s).isSome = true := fun s hs =>
    lookup_isSome_of_mem_keys (hperm.mem_iff.mp (List.take_subset _ _ hs))
  have hbatch : (simulateTick coin shuffled rand store).2
      = (chosenSymbols coin shuffled).filterMap
          (fun s => (store.lookup s).map
            (fun t => mutateToken (rand s).1 (rand s).2 t)) :=
    tickStep_batch rand store hnd
  have hsome2 : ∀ s ∈ chosenSymbols coin shuffled,
      ((store.lookup s).map
        (fun t => mutateToken (rand s).1 (rand s).2 t)).isSome = true := by
    intro s hs
    rw [Option.isSome_map']
    exact hsome s hs
  have hlen : (simulateTick coin shuffled rand store).2.length
      = (chosenSymbols coin shuffled).length := by
    rw [hbatch, length_filterMap_isSome _ _ hsome2]
  have hlenshuffled : shuffled.length = store.length := by
    rw [hperm.length_eq, List.length_map]
  have hpos : 0 < store.length := List.length_pos.mpr hne
  have hl12 : (chosenSymbols coin shuffled).length = 1 ∨
      (chosenSymbols coin shuffled).length = 2 := by
    rw [chosenSymbols, List.length_take, inf_eq_min, hlenshuffled]
    cases coin with
    | true =>
      left
      rw [show numToUpdate true = 1 from rfl]
      exact min_eq_left hpos
    | false =>
      rw [show numToUpdate false = 2 from rfl]
      rcases Nat.lt_or_ge store.length 2 with h2 | h2
      · left
        have hone : store.length = 1 := by omega
        rw [hone]
        exact min_eq_right (by omega)
      · right
        exact min_eq_left h2
  refine ⟨?_, ?_, ?_⟩
  · apply List.ne_nil_of_length_pos
    rw [hlen]
    rcases hl12 with h | h <;> rw [h] <;> omega
  · rw [hlen]
    exact hl12
  · have hmapid : (simulateTick coin shuffled rand store).2.map
        Token.tokenResourceId
        = (chosenSymbols coin shuffled).filterMap
            (fun s => (store.lookup s).map Token.tokenResourceId) := by
      rw [hbatch, List.map_filterMap]
      apply List.filterMap_congr
      intro s _
      rw [Option.map_map]
      rfl
    rw [hmapid]
    apply List.Nodup.filterMap _ hnd
    intro a a' b hb hb'
    rw [Option.mem_def] at hb hb'
    obtain ⟨ta, hla, hida⟩ := Option.map_eq_some'.mp hb
    obtain ⟨ta', hla', hida'⟩ := Option.map_eq_some'.mp hb'
    have hma := lookup_mem hla
    have hma' := lookup_mem hla'
    have hpair : ((a, ta) : String × Token) = (a', ta') :=
      List.inj_on_of_nodup_map hids hma hma' (by rw [hida, hida'])
    exact congrArg Prod.fst hpair

/-- C5 witness. -/
theorem c5_batches_nonempty_bounded_distinct_witness :
    (simulateTick false ["SOL", "ETH", "BTC"] (fun _ => (0, 0)) tokens0).2 ≠ [] ∧
    ((simulateTick false ["SOL", "ETH", "BTC"] (fun _ => (0, 0)) tokens0).2.length
        = 1 ∨
      (simulateTick false ["SOL", "ETH", "BTC"] (fun _ => (0, 0)) tokens0).2.length
        = 2) ∧
    ((simulateTick false ["SOL", "ETH", "BTC"] (fun _ => (0, 0)) tokens0).2.map
        Token.tokenResourceId).Nodup :=
  c5_batches_nonempty_bounded_distinct false ["SOL", "ETH", "BTC"]
    (fun _ => (0, 0)) tokens0 (by decide) (by decide) (by decide) (by decide)

/-- C9: for random draws in [0,1), the mutated price equals the rounding
to two decimals of price times one plus a fluctuation lying in
[-0.02, 0.02], and the mutated change24h equals the rounding to two
decimals of change24h plus a delta lying in [-0.25, 0.25]. -/
theorem c9_mutation_bounds (r1 r2 : ℚ) (t : Token)
    (h1a : 0 ≤ r1) (h1b : r1 < 1) (h2a : 0 ≤ r2) (h2b : r2 < 1) :
    (∃ f : ℚ, -(2/100) ≤ f ∧ f ≤ 2/100 ∧
      (mutateToken r1 r2 t).price = round2 (t.price * (1 + f))) ∧
    (∃ d : ℚ, -(25/100) ≤ d ∧ d ≤ 25/100 ∧
      (mutateToken r1 r2 t).change24h = round2 (t.change24h + d)) :=
  ⟨⟨(r1 - 1/2) * (4/100), by linarith, by linarith, rfl⟩,
   ⟨(r2 - 1/2) * (1/2), by linarith, by linarith, rfl⟩⟩

/-- C9 witness. -/
theorem c9_mutation_bounds_witness :
    (∃ f : ℚ, -(2/100) ≤ f ∧ f ≤ 2/100 ∧
      (mutateToken 0 0 ethToken).price = round2 (ethToken.price * (1 + f))) ∧
    (∃ d : ℚ, -(25/100) ≤ d ∧ d ≤ 25/100 ∧
      (mutateToken 0 0 ethToken).change24h
        = round2 (ethToken.change24h + d)) :=
  c9_mutation_bounds 0 0 ethToken le_rfl zero_lt_one le_rfl zero_lt_one

end PriceFeed
